import Mathlib

/-!
Verification of the CrispTranslator python bridge (scripts/translate_nllb_onnx.py,
scripts/test_mbert.py, test/python_baseline.py) against its design specification.

The development shallowly embeds the three algorithmic components:
the manual greedy decoding loop of test/python_baseline.py, the symmetric
mutual-argmax word aligner shared by translate_nllb_onnx.py and test_mbert.py,
and the request/response protocol server of run_server.  Neural models
(Sequence Model, Embedding Provider) are external collaborators and are
represented as oracle functions; python exceptions are represented by
Except results; numpy floats are represented by rationals.
-/

/-! ## Decoding engine (test/python_baseline.py)

The baseline decodes with decoder input [2, lang_token] (token id 2 is both
the BOS id placed at position 0 and the EOS id tested in the loop), runs
`for step in range(254)`, computes the next token from the current generated
sequence via argmax over the decoder logits, breaks when that token equals 2,
and otherwise appends it.  The decoder call itself is the external Sequence
Model; here it is an oracle `next : List Nat -> Nat` from the current
generated token list to the selected next token id. -/

/-- Fixed working length of the baseline decoder (padding length 256). -/
def baselineMaxLength : Nat := 256

/-- One python iteration: `next_token = argmax(logits)`; `if next_token == 2: break`;
`generated_tokens.append(next_token)`.  Fuel counts remaining loop iterations,
mirroring `for step in range(254)`. -/
def genLoop (next : List Nat → Nat) : Nat → List Nat → List Nat
  | 0, acc => acc
  | fuel + 1, acc =>
    let t := next acc
    if t = 2 then acc else genLoop next fuel (acc ++ [t])

/-- The generated token list of the baseline: start from `[2, lang_token]`
and run the bounded loop, `range(254)` being `range(256 - 2)`. -/
def baselineGenerate (next : List Nat → Nat) (langTok : Nat) : List Nat :=
  genLoop next (baselineMaxLength - 2) [2, langTok]

/-- `output_tokens = generated_tokens[2:]`, stripping BOS and the language token. -/
def baselineOutput (next : List Nat → Nat) (langTok : Nat) : List Nat :=
  (baselineGenerate next langTok).drop 2

/-- The decoder stub that always selects the end-of-sequence id. -/
def alwaysEos : List Nat → Nat := fun _ => 2

lemma genLoop_length_le (next : List Nat → Nat) :
    ∀ (fuel : Nat) (acc : List Nat), (genLoop next fuel acc).length ≤ acc.length + fuel := by
  intro fuel
  induction fuel with
  | zero => intro acc; simp [genLoop]
  | succ n ih =>
    intro acc
    simp only [genLoop]
    by_cases h : next acc = 2
    · simp [h]
    · rw [if_neg h]
      have := ih (acc ++ [next acc])
      simp at this
      omega

lemma genLoop_append_free (next : List Nat → Nat) :
    ∀ (fuel : Nat) (acc : List Nat),
      ∃ tail, genLoop next fuel acc = acc ++ tail ∧ ∀ x ∈ tail, x ≠ 2 := by
  intro fuel
  induction fuel with
  | zero => intro acc; exact ⟨[], by simp [genLoop]⟩
  | succ n ih =>
    intro acc
    simp only [genLoop]
    by_cases h : next acc = 2
    · exact ⟨[], by simp [h]⟩
    · rw [if_neg h]
      obtain ⟨tail, heq, hfree⟩ := ih (acc ++ [next acc])
      refine ⟨next acc :: tail, ?_, ?_⟩
      · rw [heq]; simp
      · intro x hx
        rcases List.mem_cons.mp hx with hx | hx
        · exact hx ▸ h
        · exact hfree x hx

/-- C5: the decoding loop runs at most `max_length - 2` steps (the fuel of
`genLoop`), hence terminates, and the generated sequence, BOS and forced
first token included, never exceeds `max_length = 256` tokens, whether or
not an EOS token is ever selected. -/
theorem decode_length_bound (next : List Nat → Nat) (langTok : Nat) :
    (baselineGenerate next langTok).length ≤ baselineMaxLength := by
  have h := genLoop_length_le next (baselineMaxLength - 2) [2, langTok]
  simpa [baselineGenerate, baselineMaxLength] using h

/-- C3 counterexample: with a decoder stub whose selected token is always the
end-of-sequence id 2, the loop stops WITHOUT appending it: the generated
sequence stays `[2, langTok]` and the returned output is `[]`, not `[2]` as
the claim (append EOS, then stop, then strip the first two tokens) would give. -/
theorem decode_eos_cex :
    alwaysEos [2, 256049] = 2 ∧
    baselineGenerate alwaysEos 256049 = [2, 256049] ∧
    baselineOutput alwaysEos 256049 = [] ∧
    baselineOutput alwaysEos 256049 ≠ [2] := by
  refine ⟨rfl, rfl, rfl, by decide⟩

/-- C3 amended: every selected token other than the end-of-sequence id is
appended; a selected end-of-sequence token stops the loop without being
appended (so id 2 never occurs past the forced prefix); the returned value
is the generated sequence with exactly the BOS id and the forced language
token stripped from the front. -/
theorem decode_append_strip (next : List Nat → Nat) (langTok : Nat) :
    ∃ tail, baselineGenerate next langTok = [2, langTok] ++ tail ∧
      (∀ x ∈ tail, x ≠ 2) ∧ baselineOutput next langTok = tail := by
  obtain ⟨tail, heq, hfree⟩ :=
    genLoop_append_free next (baselineMaxLength - 2) [2, langTok]
  refine ⟨tail, heq, hfree, ?_⟩
  simp [baselineOutput, baselineGenerate] at heq ⊢
  rw [heq]
  simp


/-! ## Alignment engine (translate_nllb_onnx.py lines 180-205, test_mbert.py align)

The embedding provider (_get_bert_embeddings / get_embeddings) is external;
its outputs are an L2-normalized subword embedding matrix (one row per
subword) and a word map from subword positions to whole-word indices.  From
those the code computes `similarity = np.dot(src, tgt.T)`, row argmaxes
(np.argmax axis=1), column argmaxes (np.argmax axis=0), keeps the mutually
best subword pairs, maps them to word index pairs, and deduplicates with a
seen set.  np.argmax returns the FIRST index attaining the maximum, which
npArgmax mirrors.  Matrix entries live in an arbitrary linear ordered
commutative ring, standing in for the numpy floats; concrete instances
below use ℤ, whose unit basis vectors are honestly L2-normalized. -/

/-- Dot product of two rows, `np.dot` on vectors. -/
def dotp {α : Type} [LinearOrderedCommRing α] (u v : List α) : α :=
  (List.zipWith (fun a b => a * b) u v).sum

/-- Scanning helper for the first-maximum argmax: carries the best index,
the best value and the index of the next element. -/
def argmaxAux {α : Type} [LinearOrderedCommRing α] : Nat → α → Nat → List α → Nat
  | bi, _, _, [] => bi
  | bi, bv, i, x :: xs => if bv < x then argmaxAux i x (i + 1) xs else argmaxAux bi bv (i + 1) xs

/-- `np.argmax`: index of the first occurrence of the maximal entry
(0 on the empty list, on which numpy raises instead). -/
def npArgmax {α : Type} [LinearOrderedCommRing α] : List α → Nat
  | [] => 0
  | x :: xs => argmaxAux 0 x 1 xs

/-- `similarity = np.dot(src_emb, tgt_emb.T)` as a list of rows. -/
def simMatrix {α : Type} [LinearOrderedCommRing α] (src tgt : List (List α)) : List (List α) :=
  src.map (fun u => tgt.map (fun v => dotp u v))

/-- Row `i` of the similarity matrix. -/
def simRow {α : Type} [LinearOrderedCommRing α] (src tgt : List (List α)) (i : Nat) : List α :=
  (simMatrix src tgt).getD i []

/-- Column `j` of the similarity matrix. -/
def simCol {α : Type} [LinearOrderedCommRing α] (src tgt : List (List α)) (j : Nat) : List α :=
  (simMatrix src tgt).map (fun row => row.getD j 0)

/-- Entry `S[i][j]` of the similarity matrix. -/
def simEntry {α : Type} [LinearOrderedCommRing α] (src tgt : List (List α)) (i j : Nat) : α :=
  dotp (src.getD i []) (tgt.getD j [])

/-- The subword pairs selected by the symmetric-argmax loop
`for i, j in enumerate(best_tgt_for_src): if best_src_for_tgt[j] == i`. -/
def mutualPairs {α : Type} [LinearOrderedCommRing α] (src tgt : List (List α)) :
    List (Nat × Nat) :=
  (List.range (simMatrix src tgt).length).filterMap (fun i =>
    let j := npArgmax (simRow src tgt i)
    if npArgmax (simCol src tgt j) = i then some (i, j) else none)

/-- Mapping a subword pair to whole-word indices through the word maps,
`src_map[i], tgt_map[j]`. -/
def toWordPair (srcMap tgtMap : List Nat) (p : Nat × Nat) : Nat × Nat :=
  (srcMap.getD p.1 0, tgtMap.getD p.2 0)

/-- First-occurrence deduplication with a seen set, as in the python loop
`if (s_idx, t_idx) not in seen: links.append(...); seen.add(...)`. -/
def dedupAux : List (Nat × Nat) → List (Nat × Nat) → List (Nat × Nat)
  | [], _ => []
  | p :: ps, seen => if p ∈ seen then dedupAux ps seen else p :: dedupAux ps (p :: seen)

/-- Deduplicate keeping first occurrences. -/
def dedupPairs (ps : List (Nat × Nat)) : List (Nat × Nat) := dedupAux ps []

/-- The link list built by translate_and_align in translate_nllb_onnx.py:
mutual-best subword pairs, mapped to word pairs, deduplicated, in source
subword iteration order.  No sorting is applied. -/
def alignmentLinks {α : Type} [LinearOrderedCommRing α] (src tgt : List (List α))
    (srcMap tgtMap : List Nat) : List (Nat × Nat) :=
  dedupPairs ((mutualPairs src tgt).map (toWordPair srcMap tgtMap))

/-- Lexicographic order on word index pairs, the order of python sorted()
on 2-tuples of ints. -/
def lexLe : Nat × Nat → Nat × Nat → Prop :=
  fun a b => a.1 < b.1 ∨ (a.1 = b.1 ∧ a.2 ≤ b.2)

instance : DecidableRel lexLe := fun a b => by
  unfold lexLe; infer_instance

instance : IsTotal (Nat × Nat) lexLe :=
  ⟨by intro a b; unfold lexLe; omega⟩

instance : IsTrans (Nat × Nat) lexLe :=
  ⟨by intro a b c; unfold lexLe; omega⟩

/-- The link list of AwesomeAlignTester.align in test_mbert.py:
`sorted(list(align_indices))` where align_indices is the set of word pairs
of the mutual-best subword pairs.  The set is modelled by first-occurrence
deduplication and sorted() by insertion sort under lexLe; a sorted
permutation of a duplicate-free list is unique, so the model does not
depend on the set iteration order. -/
def awesomeAlign {α : Type} [LinearOrderedCommRing α] (src tgt : List (List α))
    (srcMap tgtMap : List Nat) : List (Nat × Nat) :=
  List.insertionSort lexLe (dedupPairs ((mutualPairs src tgt).map (toWordPair srcMap tgtMap)))

lemma argmaxAux_spec {α : Type} [LinearOrderedCommRing α] (xs : List α) :
    ∀ (bi i : Nat) (bv : α),
    (argmaxAux bi bv i xs = bi ∧ ∀ k, k < xs.length → xs.getD k 0 ≤ bv) ∨
    (∃ k, k < xs.length ∧ argmaxAux bi bv i xs = i + k ∧ bv ≤ xs.getD k 0 ∧
      ∀ k2, k2 < xs.length → xs.getD k2 0 ≤ xs.getD k 0) := by
  induction xs with
  | nil =>
    intro bi i bv
    left
    exact ⟨rfl, fun k hk => by simp at hk⟩
  | cons x xs ih =>
    intro bi i bv
    by_cases hx : bv < x
    · rcases ih i (i + 1) x with ⟨heq, hall⟩ | ⟨k, hk, heq, hge, hmax⟩
      · right
        refine ⟨0, by simp, ?_, ?_, ?_⟩
        · simp [argmaxAux, hx, heq]
        · simpa using le_of_lt hx
        · intro k2 hk2
          match k2 with
          | 0 => simp
          | k2 + 1 =>
            simp only [List.getD_cons_succ, List.getD_cons_zero]
            exact hall k2 (by simp at hk2; omega)
      · right
        refine ⟨k + 1, by simp; omega, ?_, ?_, ?_⟩
        · simp only [argmaxAux, if_pos hx, heq]; omega
        · simp only [List.getD_cons_succ]
          exact le_trans (le_of_lt hx) hge
        · intro k2 hk2
          match k2 with
          | 0 =>
            simp only [List.getD_cons_zero, List.getD_cons_succ]
            exact hge
          | k2 + 1 =>
            simp only [List.getD_cons_succ]
            exact hmax k2 (by simp at hk2; omega)
    · rcases ih bi (i + 1) bv with ⟨heq, hall⟩ | ⟨k, hk, heq, hge, hmax⟩
      · left
        constructor
        · simp [argmaxAux, hx, heq]
        · intro k2 hk2
          match k2 with
          | 0 => simpa using le_of_not_lt hx
          | k2 + 1 =>
            simp only [List.getD_cons_succ]
            exact hall k2 (by simp at hk2; omega)
      · right
        refine ⟨k + 1, by simp; omega, ?_, ?_, ?_⟩
        · simp only [argmaxAux, if_neg hx, heq]; omega
        · simp only [List.getD_cons_succ]
          exact hge
        · intro k2 hk2
          match k2 with
          | 0 =>
            simp only [List.getD_cons_zero, List.getD_cons_succ]
            exact le_trans (le_of_not_lt hx) hge
          | k2 + 1 =>
            simp only [List.getD_cons_succ]
            exact hmax k2 (by simp at hk2; omega)

lemma npArgmax_spec {α : Type} [LinearOrderedCommRing α] (l : List α) (h : l ≠ []) :
    npArgmax l < l.length ∧ ∀ k, k < l.length → l.getD k 0 ≤ l.getD (npArgmax l) 0 := by
  cases l with
  | nil => exact absurd rfl h
  | cons x xs =>
    rcases argmaxAux_spec xs 0 1 x with ⟨heq, hall⟩ | ⟨k, hk, heq, hge, hmax⟩
    · constructor
      · simp [npArgmax, heq]
      · intro k2 hk2
        simp only [npArgmax, heq]
        match k2 with
        | 0 => simp
        | k2 + 1 =>
          simp only [List.getD_cons_succ, List.getD_cons_zero]
          exact hall k2 (by simp at hk2; omega)
    · have h1k : 1 + k = k + 1 := by omega
      constructor
      · simp only [npArgmax, heq, List.length_cons]; omega
      · intro k2 hk2
        simp only [npArgmax, heq, h1k, List.getD_cons_succ]
        match k2 with
        | 0 =>
          simp only [List.getD_cons_zero]
          exact hge
        | k2 + 1 =>
          simp only [List.getD_cons_succ]
          exact hmax k2 (by simp at hk2; omega)

lemma getD_map_of_lt {α β : Type} (f : α → β) (l : List α) (i : Nat) (hi : i < l.length)
    (d : α) (d2 : β) : (l.map f).getD i d2 = f (l.getD i d) := by
  rw [List.getD_eq_getElem _ _ (by simpa using hi), List.getD_eq_getElem _ _ hi,
    List.getElem_map]

lemma simMatrix_length {α : Type} [LinearOrderedCommRing α] (src tgt : List (List α)) :
    (simMatrix src tgt).length = src.length := by
  simp [simMatrix]

lemma simRow_eq {α : Type} [LinearOrderedCommRing α] (src tgt : List (List α)) (i : Nat)
    (hi : i < src.length) :
    simRow src tgt i = tgt.map (fun v => dotp (src.getD i []) v) :=
  getD_map_of_lt _ src i hi [] []

lemma simRow_length {α : Type} [LinearOrderedCommRing α] (src tgt : List (List α)) (i : Nat)
    (hi : i < src.length) : (simRow src tgt i).length = tgt.length := by
  rw [simRow_eq src tgt i hi]; simp

lemma simRow_getD {α : Type} [LinearOrderedCommRing α] (src tgt : List (List α)) (i j : Nat)
    (hi : i < src.length) (hj : j < tgt.length) :
    (simRow src tgt i).getD j 0 = simEntry src tgt i j := by
  rw [simRow_eq src tgt i hi]
  exact getD_map_of_lt _ tgt j hj [] 0

lemma simCol_length {α : Type} [LinearOrderedCommRing α] (src tgt : List (List α)) (j : Nat) :
    (simCol src tgt j).length = src.length := by
  simp [simCol, simMatrix]

lemma simCol_getD {α : Type} [LinearOrderedCommRing α] (src tgt : List (List α)) (i j : Nat)
    (hi : i < src.length) (hj : j < tgt.length) :
    (simCol src tgt j).getD i 0 = simEntry src tgt i j := by
  unfold simCol
  rw [getD_map_of_lt _ (simMatrix src tgt) i (by rw [simMatrix_length]; exact hi) []]
  exact simRow_getD src tgt i j hi hj

lemma mem_mutualPairs {α : Type} [LinearOrderedCommRing α] (src tgt : List (List α))
    (i j : Nat) :
    (i, j) ∈ mutualPairs src tgt ↔
      i < src.length ∧ j = npArgmax (simRow src tgt i) ∧
        npArgmax (simCol src tgt j) = i := by
  unfold mutualPairs
  simp only [List.mem_filterMap, List.mem_range, simMatrix_length]
  constructor
  · rintro ⟨a, ha, hopt⟩
    split at hopt
    case isTrue hc =>
      rw [Option.some.injEq, Prod.mk.injEq] at hopt
      obtain ⟨rfl, rfl⟩ := hopt
      exact ⟨ha, rfl, hc⟩
    case isFalse hc => exact absurd hopt (by simp)
  · rintro ⟨hi, rfl, hcol⟩
    exact ⟨i, hi, by rw [if_pos hcol]⟩

/-- C1: over non-empty source and target subword embedding matrices, a
subword pair (i, j) is selected by the symmetric-argmax loop exactly when
j is the (first-occurrence) argmax of similarity row i AND i is the
(first-occurrence) argmax of similarity column j; a selected pair attains
the maximal similarity in its whole row and its whole column. -/
theorem alignment_mutual_best {α : Type} [LinearOrderedCommRing α]
    (src tgt : List (List α)) (hs : src ≠ []) (ht : tgt ≠ [])
    (i j : Nat) (hi : i < src.length) (hj : j < tgt.length) :
    ((i, j) ∈ mutualPairs src tgt ↔
       j = npArgmax (simRow src tgt i) ∧ i = npArgmax (simCol src tgt j)) ∧
    ((i, j) ∈ mutualPairs src tgt →
       (∀ j2, j2 < tgt.length → simEntry src tgt i j2 ≤ simEntry src tgt i j) ∧
       (∀ i2, i2 < src.length → simEntry src tgt i2 j ≤ simEntry src tgt i j)) := by
  have htlen : 0 < tgt.length := List.length_pos.mpr ht
  have hslen : 0 < src.length := List.length_pos.mpr hs
  constructor
  · rw [mem_mutualPairs]
    constructor
    · rintro ⟨-, h1, h2⟩; exact ⟨h1, h2.symm⟩
    · rintro ⟨h1, h2⟩; exact ⟨hi, h1, h2.symm⟩
  · intro hmem
    rw [mem_mutualPairs] at hmem
    obtain ⟨-, hrow, hcol⟩ := hmem
    have hrowne : simRow src tgt i ≠ [] := by
      intro hnil
      have hl := simRow_length src tgt i hi
      rw [hnil] at hl
      simp at hl
      omega
    have hcolne : simCol src tgt j ≠ [] := by
      intro hnil
      have hl := simCol_length src tgt j
      rw [hnil] at hl
      simp at hl
      omega
    have hrspec := npArgmax_spec _ hrowne
    have hcspec := npArgmax_spec _ hcolne
    constructor
    · intro j2 hj2
      have h1 := hrspec.2 j2 (by rw [simRow_length src tgt i hi]; exact hj2)
      rw [← hrow, simRow_getD src tgt i j2 hi hj2, simRow_getD src tgt i j hi hj] at h1
      exact h1
    · intro i2 hi2
      have h1 := hcspec.2 i2 (by rw [simCol_length src tgt j]; exact hi2)
      rw [hcol, simCol_getD src tgt i2 j hi2 hj, simCol_getD src tgt i j hi hj] at h1
      exact h1

/-- Witness for C1 at the concrete one-subword integer matrices [[1]] and [[1]]. -/
theorem alignment_mutual_best_witness :
    (((0, 0) ∈ mutualPairs [[(1 : ℤ)]] [[(1 : ℤ)]] ↔
       0 = npArgmax (simRow [[(1 : ℤ)]] [[(1 : ℤ)]] 0) ∧
       0 = npArgmax (simCol [[(1 : ℤ)]] [[(1 : ℤ)]] 0)) ∧
    ((0, 0) ∈ mutualPairs [[(1 : ℤ)]] [[(1 : ℤ)]] →
       (∀ j2, j2 < [[(1 : ℤ)]].length →
          simEntry [[(1 : ℤ)]] [[(1 : ℤ)]] 0 j2 ≤ simEntry [[(1 : ℤ)]] [[(1 : ℤ)]] 0 0) ∧
       (∀ i2, i2 < [[(1 : ℤ)]].length →
          simEntry [[(1 : ℤ)]] [[(1 : ℤ)]] i2 0 ≤ simEntry [[(1 : ℤ)]] [[(1 : ℤ)]] 0 0))) :=
  alignment_mutual_best [[(1 : ℤ)]] [[(1 : ℤ)]] (by decide) (by decide) 0 0
    (by decide) (by decide)

lemma dedupAux_not_mem_seen : ∀ (ps seen : List (Nat × Nat)) (x : Nat × Nat),
    x ∈ dedupAux ps seen → x ∉ seen := by
  intro ps
  induction ps with
  | nil => intro seen x hx; simp [dedupAux] at hx
  | cons p ps ih =>
    intro seen x hx
    simp only [dedupAux] at hx
    by_cases hp : p ∈ seen
    · rw [if_pos hp] at hx; exact ih seen x hx
    · rw [if_neg hp] at hx
      rcases List.mem_cons.mp hx with rfl | hx
      · exact hp
      · intro hxseen
        exact (ih (p :: seen) x hx) (List.mem_cons_of_mem p hxseen)

lemma dedupAux_nodup : ∀ (ps seen : List (Nat × Nat)), (dedupAux ps seen).Nodup := by
  intro ps
  induction ps with
  | nil => intro seen; simp [dedupAux]
  | cons p ps ih =>
    intro seen
    simp only [dedupAux]
    by_cases hp : p ∈ seen
    · rw [if_pos hp]; exact ih seen
    · rw [if_neg hp]
      refine List.nodup_cons.mpr ⟨?_, ih (p :: seen)⟩
      intro hmem
      exact (dedupAux_not_mem_seen ps (p :: seen) p hmem) (List.mem_cons_self p seen)

/-- C6 counterexample: concrete normalized 2x2 embeddings where source word 0
has two subwords, the first matching target word 1 and the second matching
target word 0.  The server aligner emits [(0, 1), (0, 0)], which is not in
ascending lexicographic order, refuting the sortedness half of the claim
for translate_nllb_onnx.py. -/
theorem alignment_links_unsorted_cex :
    alignmentLinks [[(1 : ℤ), 0], [0, 1]] [[0, 1], [1, 0]] [0, 0] [0, 1] =
      [(0, 1), (0, 0)] ∧
    ¬ List.Sorted lexLe
      (alignmentLinks [[(1 : ℤ), 0], [0, 1]] [[0, 1], [1, 0]] [0, 0] [0, 1]) := by
  have h1 : alignmentLinks [[(1 : ℤ), 0], [0, 1]] [[0, 1], [1, 0]] [0, 0] [0, 1] =
      [(0, 1), (0, 0)] := by decide
  refine ⟨h1, ?_⟩
  rw [h1]
  intro h
  have h2 := List.rel_of_sorted_cons h (0, 0) (by simp)
  unfold lexLe at h2
  omega

/-- C6 amended: both aligners return duplicate-free word-pair lists; the
test aligner of test_mbert.py additionally sorts by (source word, target
word); the server aligner of translate_nllb_onnx.py emits links in source
subword iteration order without sorting. -/
theorem alignment_links_nodup_sorted {α : Type} [LinearOrderedCommRing α]
    (src tgt : List (List α)) (srcMap tgtMap : List Nat) :
    (alignmentLinks src tgt srcMap tgtMap).Nodup ∧
    (awesomeAlign src tgt srcMap tgtMap).Nodup ∧
    List.Sorted lexLe (awesomeAlign src tgt srcMap tgtMap) := by
  refine ⟨dedupAux_nodup _ _, ?_, List.sorted_insertionSort lexLe _⟩
  have hperm := List.perm_insertionSort lexLe
    (dedupPairs ((mutualPairs src tgt).map (toWordPair srcMap tgtMap)))
  exact hperm.nodup_iff.mpr (dedupAux_nodup _ _)

/-! ## Translation session and protocol server (translate_nllb_onnx.py)

UnifiedTranslator holds the mutable generation configuration (beam_size,
repetition_penalty, no_repeat_ngram_size, max_length with defaults 4, 1.2,
3, 256).  translate_and_align performs the URL pass-through, resolves
language names through lang_codes with defaults eng_Latn / deu_Latn, calls
the sequence model, and when the aligner is loaded and both whitespace word
lists are non-empty calls the embedding provider on each side and runs the
mutual-argmax aligner.  Exceptions raised by the external collaborators are
modelled as Except.error results and the enclosing python try/except as the
propagation of those errors to the failure return form (None, str(e)),
modelled by TAResult.err.  Each call of an external collaborator is
recorded in an oracle call log so that not invoking a model is provable. -/

/-- Mutable generation settings of UnifiedTranslator. -/
structure GenerationConfig where
  beam_size : ℤ
  repetition_penalty : ℚ
  no_repeat_ngram_size : ℤ
  max_length : ℤ
deriving DecidableEq

/-- Constructor defaults 4, 1.2, 3, 256 of UnifiedTranslator. -/
def defaultConfig : GenerationConfig := ⟨4, 6 / 5, 3, 256⟩

/-- UnifiedTranslator.update_settings: each supplied (non-None) field
overwrites, each omitted field keeps its value. -/
def update_settings (c : GenerationConfig) (bs : Option ℤ) (rp : Option ℚ)
    (ng ml : Option ℤ) : GenerationConfig :=
  ⟨bs.getD c.beam_size, rp.getD c.repetition_penalty,
   ng.getD c.no_repeat_ngram_size, ml.getD c.max_length⟩

/-- The language-name to model-code table of UnifiedTranslator. -/
def lang_codes : List (String × String) :=
  [("English", "eng_Latn"), ("German", "deu_Latn"), ("Spanish", "spa_Latn"),
   ("French", "fra_Latn"), ("Italian", "ita_Latn"), ("Portuguese", "por_Latn"),
   ("Russian", "rus_Cyrl"), ("Chinese", "zho_Hans"), ("Japanese", "jpn_Jpan"),
   ("Korean", "kor_Hang"), ("Arabic", "arb_Arab"), ("Dutch", "nld_Latn"),
   ("Polish", "pol_Latn"), ("Turkish", "tur_Latn"), ("Czech", "ces_Latn"),
   ("Ukrainian", "ukr_Cyrl"), ("Vietnamese", "vie_Latn"), ("Hindi", "hin_Deva")]

/-- python dict.get(key, default) on a string table. -/
def lookupD (m : List (String × String)) (k d : String) : String :=
  match m.find? (fun p => p.1 == k) with
  | some p => p.2
  | none => d

/-- python str.startswith, computed on the character list of the string. -/
def pyStartsWith (s p : String) : Bool := p.data.isPrefixOf s.data

/-- Splitting a character list on whitespace runs, accumulating the current
word reversed; empty pieces are dropped as python str.split() does. -/
def splitWsAux : List Char → List Char → List (List Char)
  | [], cur => if cur.isEmpty then [] else [cur.reverse]
  | ch :: rest, cur =>
    if ch.isWhitespace then
      if cur.isEmpty then splitWsAux rest [] else cur.reverse :: splitWsAux rest []
    else splitWsAux rest (ch :: cur)

/-- python str.split() with no argument: split on whitespace runs,
discarding empty pieces. -/
def pySplit (s : String) : List String := (splitWsAux s.data []).map String.mk

/-- One invocation of an external collaborator model. -/
inductive OracleCall where
  | generate (text srcCode tgtCode : String)
  | embed (words : List String)
deriving DecidableEq

/-- The external collaborators of the session: the sequence model
(self.model.generate plus tokenizer decode, as one text-to-text unit that
reads the generation configuration) and the embedding provider
(_get_bert_embeddings, returning the normalized embedding matrix and the
word map); alignLoaded mirrors `if self.align_sess`. -/
structure Engine where
  generate : GenerationConfig → String → String → String → Except String String
  embed : List String → Except String (List (List ℤ) × List Nat)
  alignLoaded : Bool

/-- The python return value of translate_and_align: `(translation, links)`
on success, `(None, str(e))` on a caught exception. -/
inductive TAResult where
  | ok (translation : String) (links : List (Nat × Nat))
  | err (msg : String)
deriving DecidableEq

/-- UnifiedTranslator.translate_and_align, paired with the log of external
model invocations it performs. -/
def translate_and_align (eng : Engine) (c : GenerationConfig)
    (text source target : String) : TAResult × List OracleCall :=
  if pyStartsWith text "http" || pyStartsWith text "www" then
    (TAResult.ok text [], [])
  else
    match eng.generate c text (lookupD lang_codes source "eng_Latn")
        (lookupD lang_codes target "deu_Latn") with
    | Except.error e =>
        (TAResult.err e,
         [OracleCall.generate text (lookupD lang_codes source "eng_Latn")
            (lookupD lang_codes target "deu_Latn")])
    | Except.ok translation =>
        if eng.alignLoaded then
          if (pySplit text).isEmpty || (pySplit translation).isEmpty then
            (TAResult.ok translation [],
             [OracleCall.generate text (lookupD lang_codes source "eng_Latn")
                (lookupD lang_codes target "deu_Latn")])
          else
            match eng.embed (pySplit text) with
            | Except.error e =>
                (TAResult.err e,
                 [OracleCall.generate text (lookupD lang_codes source "eng_Latn")
                    (lookupD lang_codes target "deu_Latn"),
                  OracleCall.embed (pySplit text)])
            | Except.ok se =>
                match eng.embed (pySplit translation) with
                | Except.error e =>
                    (TAResult.err e,
                     [OracleCall.generate text (lookupD lang_codes source "eng_Latn")
                        (lookupD lang_codes target "deu_Latn"),
                      OracleCall.embed (pySplit text),
                      OracleCall.embed (pySplit translation)])
                | Except.ok te =>
                    (TAResult.ok translation (alignmentLinks se.1 te.1 se.2 te.2),
                     [OracleCall.generate text (lookupD lang_codes source "eng_Latn")
                        (lookupD lang_codes target "deu_Latn"),
                      OracleCall.embed (pySplit text),
                      OracleCall.embed (pySplit translation)])
        else
          (TAResult.ok translation [],
           [OracleCall.generate text (lookupD lang_codes source "eng_Latn")
              (lookupD lang_codes target "deu_Latn")])

/-- A parsed request line: each field is the result of request.get(key),
with Option.none for an absent (or null) field. -/
structure Request where
  command : Option String
  text : Option String
  source : Option String
  target : Option String
  request_id : Option String
  beam_size : Option ℤ
  repetition_penalty : Option ℚ
  no_repeat_ngram_size : Option ℤ
  max_length : Option ℤ
deriving DecidableEq

/-- A response line of run_server: a bare status object (ready,
settings_updated), a translation success, or a per-request failure. -/
inductive Response where
  | status (s : String)
  | translation (translation : String) (alignments : List (Nat × Nat))
      (request_id : Option String)
  | requestError (error : String) (request_id : Option String)
deriving DecidableEq

/-- The request_id carried by a response, when it carries one. -/
def responseRequestId : Response → Option (Option String)
  | Response.status _ => none
  | Response.translation _ _ rid => some rid
  | Response.requestError _ rid => some rid

/-- The translation branch of the run_server loop body: read text, source,
target with defaults "", "English", "German", call translate_and_align,
and emit the success or error response carrying request.get("request_id"). -/
def serveTranslate (eng : Engine) (c : GenerationConfig) (r : Request) : Response :=
  match (translate_and_align eng c (r.text.getD "") (r.source.getD "English")
      (r.target.getD "German")).1 with
  | TAResult.ok tr links => Response.translation tr links r.request_id
  | TAResult.err m => Response.requestError m r.request_id

/-- The run_server loop body for one parsed request: an update_settings
command mutates the configuration and acknowledges; every other request is
dispatched as a translation.  There is no shutdown branch in the code. -/
def serveRequest (eng : Engine) (c : GenerationConfig) (r : Request) :
    GenerationConfig × Response :=
  if r.command = some "update_settings" then
    (update_settings c r.beam_size r.repetition_penalty r.no_repeat_ngram_size
       r.max_length,
     Response.status "settings_updated")
  else
    (c, serveTranslate eng c r)

/-- The run_server serving loop over a stream of parsed request lines:
one response per request, in arrival order, until the input ends. -/
def serveLoop (eng : Engine) : GenerationConfig → List Request → GenerationConfig × List Response
  | c, [] => (c, [])
  | c, r :: rest =>
    ((serveLoop eng (serveRequest eng c r).1 rest).1,
     (serveRequest eng c r).2 :: (serveLoop eng (serveRequest eng c r).1 rest).2)

/-- A stub engine: translation always returns the fixed text hallo, the
aligner is not loaded. -/
def stubEngine : Engine :=
  ⟨fun _ _ _ _ => Except.ok "hallo", fun _ => Except.ok ([], []), false⟩

/-- A stub engine with the aligner loaded whose translation is empty. -/
def emptyGenEngine : Engine :=
  ⟨fun _ _ _ _ => Except.ok "", fun _ => Except.ok ([], []), true⟩

/-- The parsed line with command shutdown and no other field. -/
def shutdownReq : Request := ⟨some "shutdown", none, none, none, none, none, none, none, none⟩

/-- A parsed translation request with every field absent. -/
def emptyReq : Request := ⟨none, none, none, none, none, none, none, none, none⟩

/-- C4: a text beginning with http or www is returned unchanged with an
empty link list and an empty oracle call log, so neither the sequence
model nor the embedding provider is invoked, for every engine,
configuration and language pair. -/
theorem url_passthrough (eng : Engine) (c : GenerationConfig)
    (text source target : String)
    (h : pyStartsWith text "http" = true ∨ pyStartsWith text "www" = true) :
    translate_and_align eng c text source target = (TAResult.ok text [], []) := by
  unfold translate_and_align
  have hb : (pyStartsWith text "http" || pyStartsWith text "www") = true := by
    rcases h with h | h <;> simp [h]
  rw [if_pos hb]

/-- Witness for C4 at the concrete text http://x. -/
theorem url_passthrough_witness :
    translate_and_align stubEngine defaultConfig "http://x" "English" "German" =
      (TAResult.ok "http://x" [], []) :=
  url_passthrough stubEngine defaultConfig "http://x" "English" "German"
    (Or.inl (by decide))

/-- C9: with the aligner loaded, a non-URL text and a successful
generation, if either whitespace word list is empty the session returns
the translation with an empty link list and the embedding provider is
never invoked, so the aligner (and the numpy argmax over an empty
similarity matrix) is unreachable. -/
theorem align_empty_words (eng : Engine) (c : GenerationConfig)
    (text source target tr : String)
    (hload : eng.alignLoaded = true)
    (hpass : (pyStartsWith text "http" || pyStartsWith text "www") = false)
    (hgen : eng.generate c text (lookupD lang_codes source "eng_Latn")
        (lookupD lang_codes target "deu_Latn") = Except.ok tr)
    (hempty : pySplit text = [] ∨ pySplit tr = []) :
    (translate_and_align eng c text source target).1 = TAResult.ok tr [] ∧
    ∀ ws, OracleCall.embed ws ∉ (translate_and_align eng c text source target).2 := by
  have hres : translate_and_align eng c text source target =
      (TAResult.ok tr [],
       [OracleCall.generate text (lookupD lang_codes source "eng_Latn")
          (lookupD lang_codes target "deu_Latn")]) := by
    rcases hempty with h | h <;>
      simp [translate_and_align, hpass, hgen, hload, h]
  rw [hres]
  exact ⟨rfl, by simp⟩

/-- Witness for C9: aligner loaded, generation returns the empty string,
whose word list is empty. -/
theorem align_empty_words_witness :
    (translate_and_align emptyGenEngine defaultConfig "hallo" "English" "German").1 =
      TAResult.ok "" [] ∧
    ∀ ws, OracleCall.embed ws ∉
      (translate_and_align emptyGenEngine defaultConfig "hallo" "English" "German").2 :=
  align_empty_words emptyGenEngine defaultConfig "hallo" "English" "German" ""
    rfl (by decide) rfl (Or.inr (by decide))

/-- An oracle call that returned normally. -/
def oracleOk (eng : Engine) (c : GenerationConfig) : OracleCall → Prop
  | OracleCall.generate t s g => ∃ r, eng.generate c t s g = Except.ok r
  | OracleCall.embed ws => ∃ r, eng.embed ws = Except.ok r

/-- An oracle call that raised the exception message m. -/
def oracleRaised (eng : Engine) (c : GenerationConfig) : OracleCall → String → Prop
  | OracleCall.generate t s g, m => eng.generate c t s g = Except.error m
  | OracleCall.embed ws, m => eng.embed ws = Except.error m

/-- C7: translate_and_align is total on its shallow embedding; either every
external model call it performed returned normally and the result is the
success form, or the result is exactly the failure form (None, message)
where the message is that of an exception raised by one of its model
calls.  Exceptions therefore never escape the session. -/
theorem exceptions_converted (eng : Engine) (c : GenerationConfig)
    (text source target : String) :
    ((∀ call ∈ (translate_and_align eng c text source target).2, oracleOk eng c call) ∧
      ∃ tr links, (translate_and_align eng c text source target).1 = TAResult.ok tr links) ∨
    (∃ m, (translate_and_align eng c text source target).1 = TAResult.err m ∧
      ∃ call ∈ (translate_and_align eng c text source target).2,
        oracleRaised eng c call m) := by
  unfold translate_and_align
  by_cases hpass : (pyStartsWith text "http" || pyStartsWith text "www") = true
  · rw [if_pos hpass]
    left
    exact ⟨by simp, text, [], rfl⟩
  · rw [if_neg hpass]
    rcases hg : eng.generate c text (lookupD lang_codes source "eng_Latn")
        (lookupD lang_codes target "deu_Latn") with m | tr
    · right
      refine ⟨m, rfl, OracleCall.generate text (lookupD lang_codes source "eng_Latn")
        (lookupD lang_codes target "deu_Latn"), by simp, hg⟩
    · cases hl : eng.alignLoaded
      · simp only [hl, Bool.false_eq_true, if_false]
        left
        refine ⟨?_, tr, [], rfl⟩
        intro call hcall
        rw [List.mem_singleton] at hcall
        subst hcall
        exact ⟨tr, hg⟩
      · simp only [hl, if_true]
        by_cases hemp : ((pySplit text).isEmpty || (pySplit tr).isEmpty) = true
        · rw [if_pos hemp]
          left
          refine ⟨?_, tr, [], rfl⟩
          intro call hcall
          rw [List.mem_singleton] at hcall
          subst hcall
          exact ⟨tr, hg⟩
        · rw [if_neg hemp]
          rcases h2 : eng.embed (pySplit text) with m2 | se
          · right
            exact ⟨m2, rfl, OracleCall.embed (pySplit text), by simp, h2⟩
          · rcases h3 : eng.embed (pySplit tr) with m3 | te
            · right
              exact ⟨m3, rfl, OracleCall.embed (pySplit tr), by simp, h3⟩
            · left
              refine ⟨?_, tr, alignmentLinks se.1 te.1 se.2 te.2, rfl⟩
              intro call hcall
              simp only [List.mem_cons, List.not_mem_nil, or_false] at hcall
              rcases hcall with rfl | rfl | rfl
              · exact ⟨tr, hg⟩
              · exact ⟨se, h2⟩
              · exact ⟨te, h3⟩

lemma serveLoop_length (eng : Engine) : ∀ (reqs : List Request) (c : GenerationConfig),
    ((serveLoop eng c reqs).2).length = reqs.length := by
  intro reqs
  induction reqs with
  | nil => intro c; rfl
  | cons r rest ih =>
    intro c
    simp only [serveLoop, List.length_cons]
    rw [ih]

lemma serveLoop_config_const (eng : Engine) : ∀ (reqs : List Request) (c : GenerationConfig),
    (∀ r ∈ reqs, r.command ≠ some "update_settings") → (serveLoop eng c reqs).1 = c := by
  intro reqs
  induction reqs with
  | nil => intro c _; rfl
  | cons r rest ih =>
    intro c h
    have hr : (serveRequest eng c r).1 = c := by
      unfold serveRequest
      rw [if_neg (h r (List.mem_cons_self r rest))]
    simp only [serveLoop]
    rw [hr]
    exact ih c (fun r2 hr2 => h r2 (List.mem_cons_of_mem r hr2))

/-- C2 counterexample: run_server has no shutdown branch.  Feeding the
parsed line with command shutdown twice to the serving loop produces two
translation responses built from the default request fields (here via the
stub engine, both hallo with request_id null); no response with status
shutdown is emitted, and the loop keeps serving past the first shutdown
line instead of exiting. -/
theorem shutdown_cex :
    (serveLoop stubEngine defaultConfig [shutdownReq, shutdownReq]).2 =
      [Response.translation "hallo" [] none, Response.translation "hallo" [] none] ∧
    Response.status "shutdown" ∉
      (serveLoop stubEngine defaultConfig [shutdownReq, shutdownReq]).2 := by
  have h1 : (serveLoop stubEngine defaultConfig [shutdownReq, shutdownReq]).2 =
      [Response.translation "hallo" [] none, Response.translation "hallo" [] none] := by
    decide
  refine ⟨h1, ?_⟩
  rw [h1]
  decide

/-- C2 amended: the server does not recognize a shutdown command.  A
request whose command is shutdown is dispatched like any other
non-update_settings line, through the translation branch with defaults for
the missing fields; the serving loop emits one response per request and
exits only when the input stream ends, not upon a shutdown line. -/
theorem shutdown_not_recognized (eng : Engine) (c : GenerationConfig) (r : Request)
    (h : r.command = some "shutdown") :
    serveRequest eng c r = (c, serveTranslate eng c r) ∧
    ∀ reqs : List Request, ((serveLoop eng c reqs).2).length = reqs.length := by
  constructor
  · unfold serveRequest
    rw [if_neg (by rw [h]; simp)]
  · intro reqs
    exact serveLoop_length eng reqs c

/-- Witness for the amended C2 at the stub engine and the shutdown line. -/
theorem shutdown_not_recognized_witness :
    serveRequest stubEngine defaultConfig shutdownReq =
      (defaultConfig, serveTranslate stubEngine defaultConfig shutdownReq) ∧
    ((serveLoop stubEngine defaultConfig [shutdownReq]).2).length =
      [shutdownReq].length := by
  have h := shutdown_not_recognized stubEngine defaultConfig shutdownReq rfl
  exact ⟨h.1, h.2 [shutdownReq]⟩

/-- C8: update_settings overwrites exactly the supplied configuration
fields, each omitted field keeping its current value, and the
configuration persists unchanged across any run of requests that contains
no update_settings command. -/
theorem settings_update_frame (c : GenerationConfig) (bs : Option ℤ) (rp : Option ℚ)
    (ng ml : Option ℤ) :
    (∀ v, bs = some v → (update_settings c bs rp ng ml).beam_size = v) ∧
    (bs = none → (update_settings c bs rp ng ml).beam_size = c.beam_size) ∧
    (∀ v, rp = some v → (update_settings c bs rp ng ml).repetition_penalty = v) ∧
    (rp = none →
      (update_settings c bs rp ng ml).repetition_penalty = c.repetition_penalty) ∧
    (∀ v, ng = some v → (update_settings c bs rp ng ml).no_repeat_ngram_size = v) ∧
    (ng = none →
      (update_settings c bs rp ng ml).no_repeat_ngram_size = c.no_repeat_ngram_size) ∧
    (∀ v, ml = some v → (update_settings c bs rp ng ml).max_length = v) ∧
    (ml = none → (update_settings c bs rp ng ml).max_length = c.max_length) ∧
    (∀ (eng : Engine) (reqs : List Request),
      (∀ r ∈ reqs, r.command ≠ some "update_settings") →
        (serveLoop eng c reqs).1 = c) := by
  refine ⟨?_, ?_, ?_, ?_, ?_, ?_, ?_, ?_, ?_⟩
  · intro v h; rw [h]; rfl
  · intro h; rw [h]; rfl
  · intro v h; rw [h]; rfl
  · intro h; rw [h]; rfl
  · intro v h; rw [h]; rfl
  · intro h; rw [h]; rfl
  · intro v h; rw [h]; rfl
  · intro h; rw [h]; rfl
  · intro eng reqs h
    exact serveLoop_config_const eng reqs c h

/-- Witness for C8: beam_size supplied (set to 2), repetition_penalty
omitted (kept), and a translation-only run leaving the configuration
untouched. -/
theorem settings_update_frame_witness :
    (update_settings defaultConfig (some 2) none none none).beam_size = 2 ∧
    (update_settings defaultConfig (some 2) none none none).repetition_penalty =
      defaultConfig.repetition_penalty ∧
    (serveLoop stubEngine defaultConfig [emptyReq]).1 = defaultConfig := by
  have h := settings_update_frame defaultConfig (some 2) none none none
  exact ⟨h.1 2 rfl, h.2.2.2.1 rfl,
    h.2.2.2.2.2.2.2.2 stubEngine [emptyReq] (by decide)⟩

/-- C10: every request whose command is not update_settings is served
through the translation branch with text, source and target read from the
fields named text, source, target, defaulting to the empty string, English
and German when absent, and the response carries exactly the request_id
field of the request (null when it was absent). -/
theorem request_field_defaults (eng : Engine) (c : GenerationConfig) (r : Request)
    (h : r.command ≠ some "update_settings") :
    (serveRequest eng c r).2 =
      (match (translate_and_align eng c (r.text.getD "") (r.source.getD "English")
          (r.target.getD "German")).1 with
        | TAResult.ok tr links => Response.translation tr links r.request_id
        | TAResult.err m => Response.requestError m r.request_id) ∧
    responseRequestId (serveRequest eng c r).2 = some r.request_id := by
  have hbr : (serveRequest eng c r).2 = serveTranslate eng c r := by
    unfold serveRequest
    rw [if_neg h]
  constructor
  · rw [hbr]; rfl
  · rw [hbr]
    unfold serveTranslate
    split <;> rfl

/-- Witness for C10 at the all-absent request: text defaults to the empty
string, source to English, target to German, request_id to null. -/
theorem request_field_defaults_witness :
    (serveRequest stubEngine defaultConfig emptyReq).2 =
      (match (translate_and_align stubEngine defaultConfig "" "English" "German").1 with
        | TAResult.ok tr links => Response.translation tr links none
        | TAResult.err m => Response.requestError m none) ∧
    responseRequestId (serveRequest stubEngine defaultConfig emptyReq).2 = some none :=
  request_field_defaults stubEngine defaultConfig emptyReq (by decide)
